import Mathlib

/-!
Verification development for the starlet (isotropic undecimated à-trous wavelet)
transform of `lenstronomy/LightModel/Profiles/starlets.py` (class `Starlets`,
SLIT code path: `_transform_slit`, `_inverse_transform_slit`, `function`,
`decomposition`, `spectral_norm`).

Modelling conventions:
* numpy float arrays are modelled over `ℚ` (exact arithmetic; the spec's
  round-trip identities are stated "exactly over exact real arithmetic");
* a 2-D array of shape (H, W) is a total function `ℕ → ℕ → ℚ` whose
  meaningful entries are the indices below H and W; a coefficient cube is
  `ℕ → ℕ → ℕ → ℚ` (plane, row, column) together with its plane count;
* fallible numpy execution (broadcasting errors, missing names, negative
  indexing of empty arrays) is `Except String`;
* `scipy.ndimage.filters.convolve1d(..., mode='nearest')` with an odd-length
  kernel w of length L computes `out[i] = Σ_k w[k]·x[clamp(i + L/2 - k)]`
  where clamp replicates the nearest edge sample;
* `scipy.signal.convolve2d(..., mode='same', boundary='symm')` with an
  odd-sized kernel computes the same centred true convolution with the input
  extended by symmetric reflection that repeats the edge sample (period-2n
  half-sample symmetrisation);
* `int(np.log2(n))` is modelled by `Nat.log2 n` (exact floor; the float
  computation agrees with the floor for every realistic image width, the
  first deviations appearing only near 2^48);
* `np.linspace(0, L-1, m, dtype=int)` in the kernel-dilation code is exact:
  the step (L-1)/(m-1) = 2^i is an integer, so the positions are k·2^i.
-/

namespace StarletsModel

/-- Boundary index policy of `scipy.ndimage.convolve1d(..., mode='nearest')`
(used on both separable passes of the transform): an out-of-range index is
clamped to the nearest valid index, i.e. the edge sample is replicated. -/
def clampIdx (n : ℕ) (t : ℤ) : ℕ :=
  (max 0 (min t ((n : ℤ) - 1))).toNat

/-- Boundary index policy of `scipy.signal.convolve2d(..., boundary='symm')`
(used by the `convol2d=1` code path): symmetric reflection that repeats the
edge sample, i.e. period-2n folding of the index. -/
def symIdx (n : ℕ) (t : ℤ) : ℕ :=
  let u := (t % (2 * (n : ℤ))).toNat
  if u < n then u else 2 * n - 1 - u

/-- Modelled from the spec: the boundary policy the spec claims for every
convolution, "extends edge values by reflection without repeating the edge
sample" (mirror). Whole-sample reflection has period 2n-2. This definition
follows the spec's words; it does not appear anywhere in the source. -/
def mirrorIdx (n : ℕ) (t : ℤ) : ℕ :=
  let u := (t % (2 * (n : ℤ) - 2)).toNat
  if u < n then u else 2 * n - 2 - u

/-- Base B-spline kernel `h = [1/16, 1/4, 3/8, 1/4, 1/16]` (source line
`h = [1./16, 1./4, 3./8, 1./4, 1./16]`), as a tap function. -/
def bsplineTap : ℕ → ℚ
  | 0 => 1/16
  | 1 => 1/4
  | 2 => 3/8
  | 3 => 1/4
  | 4 => 1/16
  | _ => 0

/-- Base linear kernel `h = [1/4, 1/2, 1/4]` (the non-Bspline branch of
`_transform_slit`), as a tap function. -/
def linearTap : ℕ → ℚ
  | 0 => 1/4
  | 1 => 1/2
  | 2 => 1/4
  | _ => 0

/-- Length of the dilated ("à trous") kernel at scale i for a base kernel of
m taps: source `newh = np.zeros((1, n+(n-1)*(2**i-1)))`. -/
def dilLen (m i : ℕ) : ℕ :=
  m + (m - 1) * (2 ^ i - 1)

/-- Tap function of the dilated kernel at scale i: the source places the base
taps at `np.linspace(0, len(newh)-1, len(h), dtype=int)`, which are exactly
the positions k·2^i (the linspace step (len-1)/(m-1) = 2^i is an integer),
and leaves zeros elsewhere. -/
def dilTap (h : ℕ → ℚ) (m i k : ℕ) : ℚ :=
  if k % 2 ^ i = 0 ∧ k / 2 ^ i < m then h (k / 2 ^ i) else 0

/-- Centred same-size 1-D convolution with an odd-length kernel of length L
and tap function w, under boundary index policy ext over an axis of length n:
`out[i] = Σ_k w[k] · x[ext(i + L/2 - k)]`. This is the semantics of both
scipy convolutions used by the source for odd L. -/
def conv1 (L : ℕ) (w : ℕ → ℚ) (ext : ℕ → ℤ → ℕ) (n : ℕ) (x : ℕ → ℚ) (i : ℕ) : ℚ :=
  ∑ k ∈ Finset.range L, w k * x (ext n ((i : ℤ) + (L / 2 : ℕ) - (k : ℤ)))

/-- Row-axis pass: `scf.convolve1d(c, newh[0,:], axis=0, mode=mode)`. -/
def convAxis0 (L : ℕ) (w : ℕ → ℚ) (ext : ℕ → ℤ → ℕ) (H : ℕ)
    (x : ℕ → ℕ → ℚ) : ℕ → ℕ → ℚ :=
  fun i j => conv1 L w ext H (fun t => x t j) i

/-- Column-axis pass: `scf.convolve1d(c, newh[0,:], axis=1, mode=mode)`. -/
def convAxis1 (L : ℕ) (w : ℕ → ℚ) (ext : ℕ → ℤ → ℕ) (W : ℕ)
    (x : ℕ → ℕ → ℚ) : ℕ → ℕ → ℚ :=
  fun i j => conv1 L w ext W (x i) j

/-- The separable smoothing used by `_transform_slit` / `_inverse_transform_slit`
when `convol2d == 0`: dilated B-spline kernel at scale s, axis-0 pass then
axis-1 pass, both with `mode='nearest'`. -/
def smoothSep (s H W : ℕ) (x : ℕ → ℕ → ℚ) : ℕ → ℕ → ℚ :=
  convAxis1 (dilLen 5 s) (dilTap bsplineTap 5 s) clampIdx W
    (convAxis0 (dilLen 5 s) (dilTap bsplineTap 5 s) clampIdx H x)

/-- The direct 2-D smoothing used when `convol2d == 1`:
`scs.convolve2d(c, H, mode='same', boundary='symm')` where `H = newh.T @ newh`
is the outer product of the dilated kernel with itself. -/
def smooth2dSymm (s H W : ℕ) (x : ℕ → ℕ → ℚ) : ℕ → ℕ → ℚ :=
  fun i j =>
    ∑ p ∈ Finset.range (dilLen 5 s), ∑ q ∈ Finset.range (dilLen 5 s),
      dilTap bsplineTap 5 s p * dilTap bsplineTap 5 s q *
        x (symIdx H ((i : ℤ) + (dilLen 5 s / 2 : ℕ) - (p : ℤ)))
          (symIdx W ((j : ℤ) + (dilLen 5 s / 2 : ℕ) - (q : ℤ)))

/-- Scale-s smoothing, selected by the `convol2d` flag exactly as in the
source (`if convol2d == 1: scs.convolve2d ... else: two scf.convolve1d`). -/
def smoothAt (conv2d : Bool) (s H W : ℕ) (x : ℕ → ℕ → ℚ) : ℕ → ℕ → ℚ :=
  if conv2d then smooth2dSymm s H W x else smoothSep s H W x

/-- The sequence of successively smoothed images of the forward loop:
`c₀ = img`, `c_{i+1} = smooth_i(c_i)` (source: `cnew = ...; c = cnew`). -/
def cSeq (conv2d : Bool) (H W : ℕ) (img : ℕ → ℕ → ℚ) : ℕ → (ℕ → ℕ → ℚ)
  | 0 => img
  | i + 1 => smoothAt conv2d i H W (cSeq conv2d H W img i)

/-- Detail plane i of the forward loop. First generation (source line
`wave[i,:,:] = c - cnew`): `w_i = c_i - c_{i+1}`. Second generation (source
`hc = smooth(cnew); wave[i,:,:] = c - hc`): `w_i = c_i - smooth_i(c_{i+1})`. -/
def detailPlane (secondGen conv2d : Bool) (H W : ℕ) (img : ℕ → ℕ → ℚ) (i : ℕ) :
    ℕ → ℕ → ℚ :=
  if secondGen then
    fun r c => cSeq conv2d H W img i r c -
      smoothAt conv2d i H W (cSeq conv2d H W img (i + 1)) r c
  else
    fun r c => cSeq conv2d H W img i r c - cSeq conv2d H W img (i + 1) r c

/-- The coefficient cube written by the forward loop: planes 0..lvl-1 are the
detail planes, plane lvl is the final smoothed image (`wave[i+1,:,:] = c`). -/
def transformCube (secondGen conv2d : Bool) (H W : ℕ) (img : ℕ → ℕ → ℚ)
    (lvl : ℕ) : ℕ → ℕ → ℕ → ℚ :=
  fun p i j =>
    if p < lvl then detailPlane secondGen conv2d H W img p i j
    else cSeq conv2d H W img lvl i j

/-- Embeds `Starlets._transform_slit` on a 2-D input of shape (H, W) with
`Filter='Bspline'` (the only filter `decomposition` ever requests).
Faithful points, in source order:
* `lvl = n_scales - 1` is capped at `int(np.log2(n2))` where `n2 = sh[1] = W`
  (NOT the minimal dimension), printing a warning when capping occurs — the
  Bool component records whether that warning was printed;
* if the capped `lvl` is 0 the loop body never runs and the trailing
  `wave[i+1,:,:] = c` raises NameError (loop variable `i` was never bound);
* the cube is allocated with shape `(lvl+1, n1, n2)` where `n1 = n2 = sh[1]`,
  so the per-plane assignment `wave[i,:,:] = ...` of an (H, W) array
  broadcasts only when H = W (plain copy) or H = 1 (row replication) and
  otherwise raises a broadcasting ValueError;
* result: `.ok (plane count, warned, cube)`. -/
def transformSlit2d (secondGen conv2d : Bool) (H W : ℕ) (img : ℕ → ℕ → ℚ)
    (nScales : ℕ) : Except String (ℕ × Bool × (ℕ → ℕ → ℕ → ℚ)) :=
  let lvl := min (nScales - 1) (Nat.log2 W)
  let warned := decide (Nat.log2 W < nScales - 1)
  if lvl = 0 then
    Except.error "NameError: name i is not defined"
  else if H = W then
    Except.ok (lvl + 1, warned, transformCube secondGen conv2d H W img lvl)
  else if H = 1 then
    Except.ok (lvl + 1, warned,
      fun p _ j => transformCube secondGen conv2d H W img lvl p 0 j)
  else
    Except.error "ValueError: could not broadcast input array"

/-- Embeds `Starlets._transform_slit` on a 3-D input of shape (A, B, C).
The 3-D branch (source lines 101-109) allocates
`wave = np.zeros([lvl+1, sh[1], sh[1], mn])` with `mn = np.min(sh)` and then,
for each slice, calls `wave_transform(...)` — a name that is neither defined
in the module nor imported, so the first loop iteration raises NameError.
Only when `mn = 0` (a degenerate empty stack) does the loop body never run
and the all-zero cube of shape `(n_scales, B, B, 0)` is returned. -/
def transformSlit3d (A B C : ℕ) (_img : ℕ → ℕ → ℕ → ℚ) (nScales : ℕ) :
    Except String ((ℕ × ℕ × ℕ × ℕ) × (ℕ → ℕ → ℕ → ℕ → ℚ)) :=
  if min A (min B C) = 0 then
    Except.ok ((nScales, B, B, min A (min B C)), fun _ _ _ _ => 0)
  else
    Except.error "NameError: name wave_transform is not defined"

/-- The cJ recursion of the slow path of `_inverse_transform_slit`:
`cJ₀ = wave[lvl-1]` and, at loop step k (source loop variable `i = k`),
`cJ_k = smooth_{P-1-k}(cJ_{k-1}) + wave[P-1-k]` where P is the plane count
(`lvl, n1, n2 = np.shape(wave)`) and the smoothing kernel is the dilated
B-spline at scale `lvl-1-i` (source `2**(lvl-1-i)`). -/
def invRec (conv2d : Bool) (P n1 n2 : ℕ) (wave : ℕ → ℕ → ℕ → ℚ) :
    ℕ → (ℕ → ℕ → ℚ)
  | 0 => wave (P - 1)
  | k + 1 => fun i j =>
      smoothAt conv2d (P - 1 - (k + 1)) n1 n2 (invRec conv2d P n1 n2 wave k) i j +
        wave (P - 1 - (k + 1)) i j

/-- Embeds `Starlets._inverse_transform_slit` on a cube of P planes of shape
(n1, n2). When `self._fast_inverse and not self._second_gen` it returns the
elementwise sum of all planes (`np.sum(wave, axis=0)`); otherwise it runs the
recursive reconstruction, which indexes `wave[lvl-1]` and hence raises
IndexError on an empty cube. The unused keyword arguments `convol2d=0`
(kernel selection inside the slow path) is threaded through; the dead `fast`
parameter of the source is not modelled. -/
def inverseTransformSlit (fastInverse secondGen conv2d : Bool) (P n1 n2 : ℕ)
    (wave : ℕ → ℕ → ℕ → ℚ) : Except String (ℕ → ℕ → ℚ) :=
  if fastInverse && !secondGen then
    Except.ok (fun i j => ∑ p ∈ Finset.range P, wave p i j)
  else if P = 0 then
    Except.error "IndexError: index out of bounds"
  else
    Except.ok (invRec conv2d P n1 n2 wave (P - 1))

/-- Embeds `Starlets.function(coeffs, n_scales)` in the no-pysap configuration
(the only one whose code is in this repository): it calls
`self._inverse_transform_slit(coeffs)` with default `convol2d=0` and — note —
discards its own `n_scales` argument entirely. -/
def starletsFunction (fastInverse secondGen : Bool) (P n1 n2 : ℕ)
    (wave : ℕ → ℕ → ℕ → ℚ) (_nScales : ℕ) : Except String (ℕ → ℕ → ℚ) :=
  inverseTransformSlit fastInverse secondGen false P n1 n2 wave

/-- Embeds `Starlets.decomposition(image, n_scales)` followed by
`Starlets.function(coeffs, n_scales)` on a 2-D image (no-pysap configuration,
all slit defaults). The inverse reads the cube's spatial shape, which the
forward transform allocated as `(sh[1], sh[1]) = (W, W)`. -/
def decompThenRecon (secondGen fastInverse : Bool) (H W : ℕ)
    (img : ℕ → ℕ → ℚ) (nScales : ℕ) : Except String (ℕ → ℕ → ℚ) :=
  (transformSlit2d secondGen false H W img nScales).bind
    (fun r => starletsFunction fastInverse secondGen r.1 W W r.2.2 nScales)

/-- Modelled from the spec: the separable smoothing as the spec's §4.2 claims
it behaves, identical to `smoothSep` except that the boundary extension is
the mirror policy `mirrorIdx` ("reflection without repeating the edge
sample") instead of the source's `mode='nearest'`. Used only to compare the
source behaviour against the spec's stated policy. -/
def smoothSepMirror (s H W : ℕ) (x : ℕ → ℕ → ℚ) : ℕ → ℕ → ℚ :=
  convAxis1 (dilLen 5 s) (dilTap bsplineTap 5 s) mirrorIdx W
    (convAxis0 (dilLen 5 s) (dilTap bsplineTap 5 s) mirrorIdx H x)

/-- The "nearest" boundary extension of a length-n signal to all of ℤ:
an index left of the axis reads the first sample, an index right of it reads
the last sample (edge replication). Used to characterise what policy the
source's separable convolutions actually implement. -/
def extendNearest (n : ℕ) (x : ℕ → ℚ) (t : ℤ) : ℚ :=
  if t < 0 then x 0 else if (n : ℤ) ≤ t then x (n - 1) else x t.toNat

/-- Observation: plane count of a forward-transform result. -/
def planeCountOf (r : Except String (ℕ × Bool × (ℕ → ℕ → ℕ → ℚ))) : Option ℕ :=
  r.toOption.map (fun t => t.1)

/-- Observation: whether the forward transform printed the capping warning. -/
def warnedOf (r : Except String (ℕ × Bool × (ℕ → ℕ → ℕ → ℚ))) : Option Bool :=
  r.toOption.map (fun t => t.2.1)

/-- Observation: one entry of the coefficient cube of a forward-transform
result. -/
def cubeValOf (r : Except String (ℕ × Bool × (ℕ → ℕ → ℕ → ℚ))) (p i j : ℕ) :
    Option ℚ :=
  r.toOption.map (fun t => t.2.2 p i j)

/-- Observation: one pixel of a reconstruction result. -/
def reconValOf (r : Except String (ℕ → ℕ → ℚ)) (i j : ℕ) : Option ℚ :=
  r.toOption.map (fun f => f i j)

/-- Embeds `Starlets.spectral_norm(num_pix, n_scales)` (source lines 45-49).
State is the pair of cached attributes `(_spectral_norm, _n_scales_cache)`,
absent before the first call. `compute` stands for
`self._compute_spectral_norm(num_pix, n_scales, num_iter=20, tol=1e-10)`
(whose own body delegates to `lenstronomy.Util.util.spectral_norm`, not part
of this repository); the Bool of the result records whether that power
iteration was invoked on this call. -/
def spectralNormCall (compute : ℕ → ℕ → ℚ) (st : Option (ℚ × ℕ))
    (numPix nScales : ℕ) : ℚ × Option (ℚ × ℕ) × Bool :=
  match st with
  | none => (compute numPix nScales, some (compute numPix nScales, nScales), true)
  | some (v, m) =>
      if nScales = m then (v, some (v, m), false)
      else (compute numPix nScales, some (compute numPix nScales, nScales), true)

/-! ## Helper lemmas -/

theorem one_le_log2 {N : ℕ} (h : 2 ≤ N) : 1 ≤ Nat.log2 N := by
  by_contra hc
  push_neg at hc
  have h1 : Nat.log2 N < 1 := hc
  have h2 : N < 2 ^ 1 := (Nat.log2_lt (by omega)).mp h1
  norm_num at h2
  omega

theorem dilLen_five (s : ℕ) : dilLen 5 s = 4 * 2 ^ s + 1 := by
  have h1 : 1 ≤ 2 ^ s := Nat.one_le_two_pow
  simp only [dilLen]
  omega

theorem clampIdx_of_inRange (n : ℕ) (t : ℤ) (h0 : 0 ≤ t) (h1 : t < (n : ℤ)) :
    clampIdx n t = t.toNat := by
  simp only [clampIdx]
  omega

theorem symIdx_of_inRange (n : ℕ) (t : ℤ) (h0 : 0 ≤ t) (h1 : t < (n : ℤ)) :
    symIdx n t = t.toNat := by
  have hmod : t % (2 * (n : ℤ)) = t := Int.emod_eq_of_lt h0 (by omega)
  simp only [symIdx, hmod]
  rw [if_pos (by omega)]

theorem clampIdx_extendNearest (n : ℕ) (x : ℕ → ℚ) (t : ℤ) (hn : 0 < n) :
    x (clampIdx n t) = extendNearest n x t := by
  simp only [clampIdx, extendNearest]
  split_ifs with h1 h2 <;> congr 1 <;> omega

/-- Summing all planes of a first-generation cube telescopes back to the
image, at every pixel. -/
theorem sum_transformCube_firstgen (conv2d : Bool) (H W : ℕ) (img : ℕ → ℕ → ℚ)
    (lvl i j : ℕ) :
    ∑ p ∈ Finset.range (lvl + 1), transformCube false conv2d H W img lvl p i j
      = img i j := by
  rw [Finset.sum_range_succ]
  have h1 : ∀ p ∈ Finset.range lvl,
      transformCube false conv2d H W img lvl p i j
        = cSeq conv2d H W img p i j - cSeq conv2d H W img (p + 1) i j := by
    intro p hp
    rw [Finset.mem_range] at hp
    simp [transformCube, detailPlane, hp]
  rw [Finset.sum_congr rfl h1, Finset.sum_range_sub']
  simp [transformCube, cSeq]

/-- The slow-path recursion applied to a second-generation cube reproduces
the smoothing sequence: after k steps it equals `c_{lvl-k}`. -/
theorem invRec_transformCube_secondgen (conv2d : Bool) (H W : ℕ)
    (img : ℕ → ℕ → ℚ) (lvl : ℕ) :
    ∀ k, k ≤ lvl →
      invRec conv2d (lvl + 1) H W (transformCube true conv2d H W img lvl) k
        = cSeq conv2d H W img (lvl - k) := by
  intro k
  induction k with
  | zero =>
      intro _
      funext i j
      simp [invRec, transformCube]
  | succ k ih =>
      intro hk
      have hk' : k ≤ lvl := by omega
      funext i j
      have hidx : lvl + 1 - 1 - (k + 1) = lvl - (k + 1) := by omega
      simp only [invRec, hidx, ih hk']
      have hlt : lvl - (k + 1) < lvl := by omega
      have hplus : lvl - (k + 1) + 1 = lvl - k := by omega
      simp only [transformCube, if_pos hlt, detailPlane, if_pos, hplus]
      ring

/-! ## Claim C1: first-generation fast-inverse round trip -/

/-- C1 counterexample: as stated the claim quantifies over every 2-D image,
but `_transform_slit` allocates the cube with both spatial sides equal to
`sh[1]` and the per-plane assignment raises a broadcasting ValueError for a
non-square image, here a 2x3 one, so there is no decomposition to
reconstruct. -/
theorem firstgen_roundtrip_fails_nonsquare :
    (transformSlit2d false false 2 3 (fun i j => (i : ℚ) + j) 2).toOption = none := by
  have h : Nat.log2 3 = 1 := by norm_num [Nat.log2]
  simp only [transformSlit2d, h]
  norm_num [Except.toOption]

/-- C1 (amended): for every SQUARE image (N x N, N ≥ 2) and every
n_scales ≥ 2, with the first-generation convention and fast inverse enabled,
reconstruction (the elementwise sum of all planes) returns the image exactly:
each detail plane is `w_i = c_i - c_{i+1}`, the coarse plane is `c_L`, and
the sum telescopes back to `c_0`, whatever capping did to the level count. -/
theorem firstgen_fast_roundtrip_square (N n : ℕ) (img : ℕ → ℕ → ℚ)
    (hN : 2 ≤ N) (hn : 2 ≤ n) :
    decompThenRecon false true N N img n = Except.ok img := by
  have hl2 : 1 ≤ Nat.log2 N := one_le_log2 hN
  have hlvl : ¬ (min (n - 1) (Nat.log2 N) = 0) := by omega
  simp only [decompThenRecon, transformSlit2d]
  rw [if_neg hlvl]
  simp only [if_true]
  simp only [Except.bind, starletsFunction, inverseTransformSlit, Bool.and_self,
    Bool.not_false, Bool.and_true, if_pos]
  congr 1
  funext i j
  exact sum_transformCube_firstgen false N N img (min (n - 1) (Nat.log2 N)) i j

/-- C1 witness: the round trip at a concrete 2x2 image with n_scales = 2. -/
theorem firstgen_fast_roundtrip_square_witness :
    2 ≤ 2 ∧ decompThenRecon false true 2 2 (fun (i j : ℕ) => (3 * i + j : ℚ)) 2
      = Except.ok (fun (i j : ℕ) => (3 * i + j : ℚ)) :=
  ⟨le_refl 2,
   firstgen_fast_roundtrip_square 2 2 (fun (i j : ℕ) => (3 * i + j : ℚ))
     (le_refl 2) (le_refl 2)⟩

/-! ## Claim C2: second-generation recursive round trip -/

/-- C2 counterexample: as stated the claim quantifies over every 2-D image,
but the decomposition raises a broadcasting ValueError for a non-square
image (here 3x2), because the cube is allocated with both spatial sides
equal to `sh[1]`. -/
theorem secondgen_roundtrip_fails_nonsquare :
    (transformSlit2d true false 3 2 (fun i j => (i : ℚ) * j + 1) 2).toOption = none := by
  have h : Nat.log2 2 = 1 := by norm_num [Nat.log2]
  simp only [transformSlit2d, h]
  norm_num [Except.toOption]

/-- C2 (amended): for every SQUARE image (N x N, N ≥ 2) and every
n_scales ≥ 2, with the second-generation convention, the recursive
reconstruction path (start from the coarse plane; at each step smooth with
the scale-(L-i) filter and add the next-finer detail plane) reproduces the
image — exactly, over exact rational arithmetic, hence a fortiori within
any numerical tolerance. -/
theorem secondgen_roundtrip_square (N n : ℕ) (img : ℕ → ℕ → ℚ)
    (hN : 2 ≤ N) (hn : 2 ≤ n) :
    decompThenRecon true true N N img n = Except.ok img := by
  have hl2 : 1 ≤ Nat.log2 N := one_le_log2 hN
  have hlvl : ¬ (min (n - 1) (Nat.log2 N) = 0) := by omega
  simp only [decompThenRecon, transformSlit2d]
  rw [if_neg hlvl]
  simp only [if_true]
  simp only [Except.bind, starletsFunction, inverseTransformSlit, Bool.not_true,
    Bool.and_false, Bool.false_eq_true, if_neg, Nat.add_sub_cancel]
  rw [if_neg (by omega : ¬ (min (n - 1) (Nat.log2 N) + 1 = 0))]
  rw [invRec_transformCube_secondgen false N N img (min (n - 1) (Nat.log2 N)) _ (le_refl _)]
  simp [cSeq]

/-- C2 witness: the second-generation round trip at a concrete 2x2 image
with n_scales = 2. -/
theorem secondgen_roundtrip_square_witness :
    2 ≤ 2 ∧ decompThenRecon true true 2 2 (fun (i j : ℕ) => (5 * i + 2 * j : ℚ)) 2
      = Except.ok (fun (i j : ℕ) => (5 * i + 2 * j : ℚ)) :=
  ⟨le_refl 2,
   secondgen_roundtrip_square 2 2 (fun (i j : ℕ) => (5 * i + 2 * j : ℚ))
     (le_refl 2) (le_refl 2)⟩

/-! ## Claim C3: 3-D stacks -/

/-- C3: contrary to the claim, decomposing a 3-D stack never succeeds: the
3-D branch of `_transform_slit` calls `wave_transform`, a name that is
neither defined in the module nor imported, so every non-degenerate 3-D
input (here a 2x4x4 stack with n_scales = 3) raises NameError instead of
returning a 4-D coefficient array. -/
theorem threeD_decomposition_raises_nameerror :
    transformSlit3d 2 4 4 (fun _ _ _ => 0) 3
      = Except.error "NameError: name wave_transform is not defined" := rfl

/-! ## Claim C4: scale capping -/

/-- C4 counterexample: a non-square 2-D image whose requested scale count
exceeds floor(log2(min spatial dimension)) — for the 2x8 image,
floor(log2 2) = 1 < 2 = n_scales - 1 — yet the decomposition raises (a
broadcasting ValueError) instead of proceeding with a capped scale count. -/
theorem scale_cap_nonsquare_raises :
    Nat.log2 (min 2 8) < 3 - 1 ∧
      (transformSlit2d false false 2 8 (fun i j => (i : ℚ) + j) 3).toOption = none := by
  constructor
  · norm_num [Nat.log2]
  · have h : Nat.log2 8 = 3 := by norm_num [Nat.log2]
    simp only [transformSlit2d, h]
    norm_num [Except.toOption]

/-- C4 (amended): for SQUARE images (N x N, N ≥ 2 — the only 2-D shape the
code supports), when the requested n_scales - 1 exceeds floor(log2 N) (which
for square inputs equals floor(log2) of the minimal spatial dimension), the
decomposition does not raise: it proceeds with the capped detail-scale count
floor(log2 N), returns floor(log2 N) + 1 planes, and informs the caller by
printing the warning. -/
theorem scale_cap_square_warns (sg c2 : Bool) (N n : ℕ) (img : ℕ → ℕ → ℚ)
    (hN : 2 ≤ N) (hc : Nat.log2 N < n - 1) :
    planeCountOf (transformSlit2d sg c2 N N img n) = some (Nat.log2 N + 1) ∧
      warnedOf (transformSlit2d sg c2 N N img n) = some true := by
  have hl2 : 1 ≤ Nat.log2 N := one_le_log2 hN
  have hmin : min (n - 1) (Nat.log2 N) = Nat.log2 N := by omega
  have hlvl : ¬ (min (n - 1) (Nat.log2 N) = 0) := by omega
  simp only [planeCountOf, warnedOf, transformSlit2d]
  rw [if_neg hlvl]
  simp [Except.toOption, hmin, hc]

/-- C4 witness: a 4x4 image with n_scales = 20 is capped to
floor(log2 4) = 2 detail scales (3 planes), does not raise, and warns. -/
theorem scale_cap_square_warns_witness :
    2 ≤ 4 ∧ Nat.log2 4 < 20 - 1 ∧
      (planeCountOf (transformSlit2d false false 4 4 (fun _ _ => 0) 20)
          = some (Nat.log2 4 + 1) ∧
        warnedOf (transformSlit2d false false 4 4 (fun _ _ => 0) 20) = some true) :=
  ⟨by norm_num, by norm_num [Nat.log2],
   scale_cap_square_warns false false 4 20 (fun _ _ => 0) (by norm_num)
     (by norm_num [Nat.log2])⟩

/-! ## Claim C5: plane count -/

/-- C5 counterexample: decomposing a 4x4 image with n_scales = 20 yields 3
planes, not 20 — the capped level count also caps the allocated plane count,
so the "always exactly n planes" claim fails whenever capping occurs. -/
theorem plane_count_capped_below_request :
    planeCountOf (transformSlit2d false false 4 4 (fun _ _ => (0 : ℚ)) 20) = some 3
      ∧ (3 : ℕ) ≠ 20 := by
  constructor
  · have h : Nat.log2 4 = 2 := by norm_num [Nat.log2]
    simp only [planeCountOf, transformSlit2d, h]
    norm_num [Except.toOption]
  · norm_num

/-- C5 (amended): for SQUARE images (N x N) and n_scales = n ≥ 2 with
n - 1 ≤ floor(log2 N) (no capping), the decomposition yields exactly n
planes; each plane is an N x N array (the cube is allocated with spatial
shape `(sh[1], sh[1])`, which for a square image is the image's own shape). -/
theorem plane_count_equals_nscales_when_uncapped (sg c2 : Bool) (N n : ℕ)
    (img : ℕ → ℕ → ℚ) (hn : 2 ≤ n) (hcap : n - 1 ≤ Nat.log2 N) :
    planeCountOf (transformSlit2d sg c2 N N img n) = some n := by
  have hmin : min (n - 1) (Nat.log2 N) = n - 1 := by omega
  have hlvl : ¬ (min (n - 1) (Nat.log2 N) = 0) := by rw [hmin]; omega
  simp only [planeCountOf, transformSlit2d]
  rw [if_neg hlvl]
  simp only [if_true, Except.toOption]
  rw [hmin]
  have hsucc : n - 1 + 1 = n := by omega
  simp [hsucc]

/-- C5 witness: a 4x4 image with n_scales = 3 yields exactly 3 planes. -/
theorem plane_count_equals_nscales_when_uncapped_witness :
    2 ≤ 3 ∧ 3 - 1 ≤ Nat.log2 4 ∧
      planeCountOf (transformSlit2d false false 4 4 (fun _ _ => (1 : ℚ)) 3) = some 3 :=
  ⟨by norm_num, by norm_num [Nat.log2],
   plane_count_equals_nscales_when_uncapped false false 4 3 (fun _ _ => (1 : ℚ))
     (by norm_num) (by norm_num [Nat.log2])⟩

/-! ## Claim C6: boundary policy -/

/-- C6 counterexample: the transform's separable convolution does NOT use the
mirror (reflect-without-edge-repeat) policy. On the 4x4 image with a single 1
at (0,2), the first detail plane at pixel (0,0) computed by the source is
-11/256, while the same pipeline under the spec's mirror policy gives
-3/64 = -12/256. -/
theorem boundary_policy_not_mirror :
    cubeValOf (transformSlit2d false false 4 4
        (fun i j => if i = 0 ∧ j = 2 then (1 : ℚ) else 0) 2) 0 0 0
      = some (-(11/256)) ∧
    (fun i j => if i = 0 ∧ j = 2 then (1 : ℚ) else 0) 0 0 -
        smoothSepMirror 0 4 4 (fun i j => if i = 0 ∧ j = 2 then (1 : ℚ) else 0) 0 0
      = -(3/64) ∧
    (-(11/256) : ℚ) ≠ -(3/64) := by
  have h : Nat.log2 4 = 2 := by norm_num [Nat.log2]
  have e1 : cubeValOf (transformSlit2d false false 4 4
      (fun i j => if i = 0 ∧ j = 2 then (1 : ℚ) else 0) 2) 0 0 0
      = some (transformCube false false 4 4
          (fun i j => if i = 0 ∧ j = 2 then (1 : ℚ) else 0) 1 0 0 0) := by
    simp only [cubeValOf, transformSlit2d, h]
    norm_num [Except.toOption]
  have e2 : transformCube false false 4 4
      (fun i j => if i = 0 ∧ j = 2 then (1 : ℚ) else 0) 1 0 0 0
      = (0 : ℚ) - smoothSep 0 4 4 (fun i j => if i = 0 ∧ j = 2 then (1 : ℚ) else 0) 0 0 := by
    norm_num [transformCube, detailPlane, cSeq, smoothAt]
  have e3 : smoothSep 0 4 4 (fun i j => if i = 0 ∧ j = 2 then (1 : ℚ) else 0) 0 0
      = 11/256 := by
    norm_num +decide [smoothSep, convAxis1, convAxis0, conv1, dilLen, dilTap,
      bsplineTap, clampIdx, Finset.sum_range_succ, Finset.sum_range_zero,
      min_def, max_def]
  have e4 : smoothSepMirror 0 4 4 (fun i j => if i = 0 ∧ j = 2 then (1 : ℚ) else 0) 0 0
      = 3/64 := by
    norm_num +decide [smoothSepMirror, convAxis1, convAxis0, conv1, dilLen, dilTap,
      bsplineTap, mirrorIdx, Finset.sum_range_succ, Finset.sum_range_zero]
  refine ⟨?_, ?_, by norm_num⟩
  · rw [e1, e2, e3]
    norm_num
  · rw [e4]
    norm_num

/-- C6 (amended): the boundary policies the source actually uses. The
separable passes (`mode='nearest'`) extend the image by REPLICATING the edge
sample: the convolution equals the plain convolution of the nearest-extended
signal. The direct-2D path (`boundary='symm'`) extends by symmetric
reflection that REPEATS the edge sample: the extension at position -1-t
reads sample t. Neither is the spec's mirror policy. -/
theorem boundary_policy_nearest_and_symmetric :
    (∀ (L n : ℕ) (w x : ℕ → ℚ) (i : ℕ), 0 < n →
      conv1 L w clampIdx n x i
        = ∑ k ∈ Finset.range L, w k * extendNearest n x ((i : ℤ) + (L / 2 : ℕ) - (k : ℤ)))
    ∧ (∀ n t : ℕ, t < n → symIdx n (-1 - (t : ℤ)) = t) := by
  constructor
  · intro L n w x i hn
    simp only [conv1]
    refine Finset.sum_congr rfl (fun k _ => ?_)
    rw [clampIdx_extendNearest n x _ hn]
  · intro n t ht
    have hmod : (-1 - (t : ℤ)) % (2 * (n : ℤ)) = 2 * (n : ℤ) - 1 - t := by
      have h1 : (-1 - (t : ℤ)) = (2 * (n : ℤ) - 1 - t) + (2 * (n : ℤ)) * (-1) := by ring
      rw [h1, Int.add_mul_emod_self_left, Int.emod_eq_of_lt (by omega) (by omega)]
    simp only [symIdx, hmod]
    split_ifs with h <;> omega

/-- C6 witness: both boundary characterisations at concrete inputs. -/
theorem boundary_policy_nearest_and_symmetric_witness :
    0 < 4 ∧
      (conv1 5 bsplineTap clampIdx 4 (fun t => (t : ℚ)) 0
        = ∑ k ∈ Finset.range 5,
            bsplineTap k * extendNearest 4 (fun t => (t : ℚ)) ((0 : ℤ) + (5 / 2 : ℕ) - (k : ℤ))) ∧
      2 < 4 ∧ symIdx 4 (-1 - (2 : ℤ)) = 2 :=
  ⟨by norm_num,
   boundary_policy_nearest_and_symmetric.1 5 4 bsplineTap (fun t => (t : ℚ)) 0 (by norm_num),
   by norm_num,
   boundary_policy_nearest_and_symmetric.2 4 2 (by norm_num)⟩

/-! ## Claim C7: separable vs direct-2D code paths -/

/-- C7 counterexample: the two code paths are not numerically equivalent. On
the 3x3 image with a single 1 at (1,1) with n_scales = 2, the first detail
plane at pixel (0,0) is -1/16 on the separable path (`convol2d=0`, nearest
extension) but -25/256 on the direct-2D path (`convol2d=1`, symmetric
extension). -/
theorem convolution_paths_differ_at_border :
    cubeValOf (transformSlit2d false false 3 3
        (fun i j => if i = 1 ∧ j = 1 then (1 : ℚ) else 0) 2) 0 0 0
      = some (-(1/16)) ∧
    cubeValOf (transformSlit2d false true 3 3
        (fun i j => if i = 1 ∧ j = 1 then (1 : ℚ) else 0) 2) 0 0 0
      = some (-(25/256)) ∧
    (-(1/16) : ℚ) ≠ -(25/256) := by
  have h : Nat.log2 3 = 1 := by norm_num [Nat.log2]
  have e1 : cubeValOf (transformSlit2d false false 3 3
      (fun i j => if i = 1 ∧ j = 1 then (1 : ℚ) else 0) 2) 0 0 0
      = some (transformCube false false 3 3
          (fun i j => if i = 1 ∧ j = 1 then (1 : ℚ) else 0) 1 0 0 0) := by
    simp only [cubeValOf, transformSlit2d, h]
    norm_num [Except.toOption]
  have e2 : cubeValOf (transformSlit2d false true 3 3
      (fun i j => if i = 1 ∧ j = 1 then (1 : ℚ) else 0) 2) 0 0 0
      = some (transformCube false true 3 3
          (fun i j => if i = 1 ∧ j = 1 then (1 : ℚ) else 0) 1 0 0 0) := by
    simp only [cubeValOf, transformSlit2d, h]
    norm_num [Except.toOption]
  have e3 : transformCube false false 3 3
      (fun i j => if i = 1 ∧ j = 1 then (1 : ℚ) else 0) 1 0 0 0
      = (0 : ℚ) - smoothSep 0 3 3 (fun i j => if i = 1 ∧ j = 1 then (1 : ℚ) else 0) 0 0 := by
    norm_num [transformCube, detailPlane, cSeq, smoothAt]
  have e4 : transformCube false true 3 3
      (fun i j => if i = 1 ∧ j = 1 then (1 : ℚ) else 0) 1 0 0 0
      = (0 : ℚ) - smooth2dSymm 0 3 3 (fun i j => if i = 1 ∧ j = 1 then (1 : ℚ) else 0) 0 0 := by
    norm_num [transformCube, detailPlane, cSeq, smoothAt]
  have e5 : smoothSep 0 3 3 (fun i j => if i = 1 ∧ j = 1 then (1 : ℚ) else 0) 0 0
      = 1/16 := by
    norm_num +decide [smoothSep, convAxis1, convAxis0, conv1, dilLen, dilTap,
      bsplineTap, clampIdx, Finset.sum_range_succ, Finset.sum_range_zero,
      min_def, max_def]
  have e6 : smooth2dSymm 0 3 3 (fun i j => if i = 1 ∧ j = 1 then (1 : ℚ) else 0) 0 0
      = 25/256 := by
    norm_num +decide [smooth2dSymm, conv1, dilLen, dilTap, bsplineTap, symIdx,
      Finset.sum_range_succ, Finset.sum_range_zero]
  refine ⟨?_, ?_, by norm_num⟩
  · rw [e1, e3, e5]
    norm_num
  · rw [e2, e4, e6]
    norm_num

/-- C7 (amended): the separable path and the direct-2D path agree at every
pixel whose kernel support lies inside the image (no boundary extension
involved); they differ in general only near the borders, where the separable
path extends with 'nearest' and the 2-D path with 'symm'. -/
theorem convolution_paths_agree_interior (s H W : ℕ) (x : ℕ → ℕ → ℚ) (i j : ℕ)
    (hi0 : dilLen 5 s / 2 ≤ i) (hi1 : i + dilLen 5 s / 2 < H)
    (hj0 : dilLen 5 s / 2 ≤ j) (hj1 : j + dilLen 5 s / 2 < W) :
    smoothSep s H W x i j = smooth2dSymm s H W x i j := by
  have hL : dilLen 5 s = 4 * 2 ^ s + 1 := dilLen_five s
  have hodd : dilLen 5 s = 2 * (dilLen 5 s / 2) + 1 := by rw [hL]; omega
  simp only [smoothSep, convAxis1, convAxis0, conv1, smooth2dSymm]
  rw [Finset.sum_comm]
  refine Finset.sum_congr rfl (fun q hq => ?_)
  rw [Finset.mem_range] at hq
  have hq2 : q ≤ 2 * (dilLen 5 s / 2) := by omega
  rw [Finset.mul_sum]
  refine Finset.sum_congr rfl (fun p hp => ?_)
  rw [Finset.mem_range] at hp
  have hp2 : p ≤ 2 * (dilLen 5 s / 2) := by omega
  rw [clampIdx_of_inRange W _ (by omega) (by omega)]
  rw [clampIdx_of_inRange H _ (by omega) (by omega)]
  rw [symIdx_of_inRange H _ (by omega) (by omega)]
  rw [symIdx_of_inRange W _ (by omega) (by omega)]
  ring

/-- C7 witness: the two paths agree at the centre pixel of a 5x5 image at
scale 0 (kernel support 5 fits). -/
theorem convolution_paths_agree_interior_witness :
    dilLen 5 0 / 2 ≤ 2 ∧ 2 + dilLen 5 0 / 2 < 5 ∧
      smoothSep 0 5 5 (fun (i j : ℕ) => (i * 7 + j * 3 : ℚ)) 2 2
        = smooth2dSymm 0 5 5 (fun (i j : ℕ) => (i * 7 + j * 3 : ℚ)) 2 2 :=
  ⟨by norm_num [dilLen], by norm_num [dilLen],
   convolution_paths_agree_interior 0 5 5 (fun (i j : ℕ) => (i * 7 + j * 3 : ℚ)) 2 2
     (by norm_num [dilLen]) (by norm_num [dilLen]) (by norm_num [dilLen])
     (by norm_num [dilLen])⟩

/-! ## Claim C8: plane-count validation on reconstruction -/

/-- C8 counterexample: reconstructing a 2-plane cube while the configured
n_scales = 3 implies 3 planes does not raise anything — the fast inverse
silently sums the 2 planes it was given and returns pixel value 1 at (0,0). -/
theorem reconstruction_accepts_mismatched_plane_count :
    reconValOf (starletsFunction true false 2 2 2
        (fun (p i j : ℕ) => (p + i + j : ℚ)) 3) 0 0 = some 1 ∧ (2 : ℕ) ≠ 3 := by
  constructor
  · norm_num [reconValOf, starletsFunction, inverseTransformSlit, Except.toOption,
      Finset.sum_range_succ, Finset.sum_range_zero]
  · norm_num

/-- C8 (amended): the reconstruction entry point performs no plane-count
validation at all: for any non-empty cube it succeeds on every path, and its
result is entirely independent of the n_scales argument (which
`function` never passes to `_inverse_transform_slit`). -/
theorem reconstruction_ignores_nscales (fi sg : Bool) (P n1 n2 : ℕ)
    (wave : ℕ → ℕ → ℕ → ℚ) (n n' : ℕ) (hP : 1 ≤ P) :
    (starletsFunction fi sg P n1 n2 wave n).toOption.isSome = true ∧
      starletsFunction fi sg P n1 n2 wave n
        = starletsFunction fi sg P n1 n2 wave n' := by
  refine ⟨?_, rfl⟩
  have hP0 : ¬ (P = 0) := by omega
  cases fi <;> cases sg <;>
    simp [starletsFunction, inverseTransformSlit, Except.toOption, hP0]

/-- C8 witness: the recursive path on a concrete 2-plane constant cube,
queried with two different n_scales values. -/
theorem reconstruction_ignores_nscales_witness :
    1 ≤ 2 ∧
      ((starletsFunction false true 2 3 3 (fun _ _ _ => (2 : ℚ)) 4).toOption.isSome = true ∧
        starletsFunction false true 2 3 3 (fun _ _ _ => (2 : ℚ)) 4
          = starletsFunction false true 2 3 3 (fun _ _ _ => (2 : ℚ)) 9) :=
  ⟨by norm_num,
   reconstruction_ignores_nscales false true 2 3 3 (fun _ _ _ => (2 : ℚ)) 4 9 (by norm_num)⟩

/-! ## Claim C9: spectral-norm caching -/

/-- C9: after `spectral_norm(num_pix, n)` has computed a value, every later
call with the same n_scales — whatever its num_pix — returns the cached value
with the cache state unchanged and without invoking the power iteration
(third component false); a call with a different n_scales re-runs the power
iteration (third component true). -/
theorem spectral_norm_cache_hit (compute : ℕ → ℕ → ℚ) (st : Option (ℚ × ℕ))
    (np1 np2 n : ℕ) :
    spectralNormCall compute (spectralNormCall compute st np1 n).2.1 np2 n
      = ((spectralNormCall compute st np1 n).1,
          (spectralNormCall compute st np1 n).2.1, false) ∧
    ∀ n', n' ≠ n →
      (spectralNormCall compute
          (spectralNormCall compute st np1 n).2.1 np2 n').2.2 = true := by
  constructor
  · rcases st with _ | ⟨v, m⟩
    · simp [spectralNormCall]
    · by_cases hm : n = m <;> simp [spectralNormCall, hm]
  · intro n' hn'
    rcases st with _ | ⟨v, m⟩
    · simp [spectralNormCall, hn']
    · by_cases hm : n = m
      · subst hm
        simp [spectralNormCall, hn']
      · simp [spectralNormCall, hm, hn']

/-- C9 witness: a first call with n_scales = 3, a cache hit with different
num_pix, and a recomputation at n_scales = 5. -/
theorem spectral_norm_cache_hit_witness :
    (spectralNormCall (fun a b => (a + b : ℚ))
        (spectralNormCall (fun a b => (a + b : ℚ)) none 4 3).2.1 7 3
      = ((spectralNormCall (fun a b => (a + b : ℚ)) none 4 3).1,
          (spectralNormCall (fun a b => (a + b : ℚ)) none 4 3).2.1, false)) ∧
    5 ≠ 3 ∧
    (spectralNormCall (fun a b => (a + b : ℚ))
        (spectralNormCall (fun a b => (a + b : ℚ)) none 4 3).2.1 7 5).2.2 = true :=
  ⟨(spectral_norm_cache_hit (fun a b => (a + b : ℚ)) none 4 7 3).1,
   by norm_num,
   (spectral_norm_cache_hit (fun a b => (a + b : ℚ)) none 4 7 3).2 5 (by norm_num)⟩

/-! ## Claim C10: dilated kernel structure -/

/-- C10: for both base kernels (bspline, 5 taps; linear, 3 taps) and every
scale index i, the dilated kernel has total length n + (n-1)·(2^i - 1); the
base taps sit at the evenly spaced positions k·2^i (first at 0, last at the
final position, since (n-1)·2^i is the last index); every non-zero tap is at
such a position; and the bspline kernel dilated at i = 1 has length 9 with
taps [1/16, 0, 1/4, 0, 3/8, 0, 1/4, 0, 1/16], i.e. its non-zero taps are
exactly at positions 0, 2, 4, 6, 8. -/
theorem dilated_kernel_structure (i : ℕ) :
    (dilLen 5 i = 5 + (5 - 1) * (2 ^ i - 1) ∧ dilLen 3 i = 3 + (3 - 1) * (2 ^ i - 1)) ∧
    (∀ k, k < 5 → dilTap bsplineTap 5 i (k * 2 ^ i) = bsplineTap k) ∧
    (∀ k, k < 3 → dilTap linearTap 3 i (k * 2 ^ i) = linearTap k) ∧
    (∀ jp, dilTap bsplineTap 5 i jp ≠ 0 → ∃ k, k < 5 ∧ jp = k * 2 ^ i) ∧
    (∀ jp, dilTap linearTap 3 i jp ≠ 0 → ∃ k, k < 3 ∧ jp = k * 2 ^ i) ∧
    (4 * 2 ^ i = dilLen 5 i - 1 ∧ 2 * 2 ^ i = dilLen 3 i - 1) ∧
    (dilLen 5 1 = 9 ∧ (List.range 9).map (dilTap bsplineTap 5 1)
      = [1/16, 0, 1/4, 0, 3/8, 0, 1/4, 0, 1/16]) := by
  have hp : 0 < 2 ^ i := pow_pos (by norm_num) i
  have h1 : 1 ≤ 2 ^ i := hp
  refine ⟨⟨rfl, rfl⟩, ?_, ?_, ?_, ?_, ?_, ?_⟩
  · intro k hk
    simp [dilTap, Nat.mul_mod_left, Nat.mul_div_cancel _ hp, hk]
  · intro k hk
    simp [dilTap, Nat.mul_mod_left, Nat.mul_div_cancel _ hp, hk]
  · intro jp hne
    simp only [dilTap] at hne
    split_ifs at hne with hcond
    · exact ⟨jp / 2 ^ i, hcond.2,
        (Nat.div_mul_cancel (Nat.dvd_of_mod_eq_zero hcond.1)).symm⟩
    · exact absurd rfl hne
  · intro jp hne
    simp only [dilTap] at hne
    split_ifs at hne with hcond
    · exact ⟨jp / 2 ^ i, hcond.2,
        (Nat.div_mul_cancel (Nat.dvd_of_mod_eq_zero hcond.1)).symm⟩
    · exact absurd rfl hne
  · constructor <;> (simp only [dilLen]; omega)
  · constructor
    · norm_num [dilLen]
    · norm_num +decide [List.range_succ, dilTap, bsplineTap]

/-- C10 witness: the dilation facts instantiated at scale i = 1 — tap 2 of
the bspline kernel sits at position 4, and the non-zero tap at position 2 is
at an even position as required. -/
theorem dilated_kernel_structure_witness :
    (2 < 5 ∧ dilTap bsplineTap 5 1 (2 * 2 ^ 1) = bsplineTap 2) ∧
    (∃ k, k < 5 ∧ (2 : ℕ) = k * 2 ^ 1) :=
  ⟨⟨by norm_num, (dilated_kernel_structure 1).2.1 2 (by norm_num)⟩,
   (dilated_kernel_structure 1).2.2.2.1 2 (by norm_num [dilTap, bsplineTap])⟩

end StarletsModel
